import Mathlib

/-!
Verification of the Paracletic chaos-based random byte generator
(`chaos.py`) against its natural-language specification.

The Python implementation works over IEEE-754 doubles and the SHA-256 /
SHA-512 hash functions.  The embedding is generic:

* the double arithmetic is modelled over an arbitrary `LinearOrderedField α`
  (instantiated at `ℚ` for concrete witnesses); the idealisation is exact
  field arithmetic in place of rounded IEEE arithmetic;
* the hash primitives `sha256`, `sha512`, the per-element big-endian
  8-byte double serialiser `struct.pack("!d", v)` and `tanh` are abstract
  parameters, bundled in a `Prim` structure — every theorem holds for all
  instantiations, with digest-length facts taken as hypotheses where the
  byte accounting needs them.

Bytes are modelled as `Nat` (each `< 256` in any real instantiation) and
byte strings as `List Nat`.
-/

namespace Paracletic

/-- Constant `N_DIM = 12` from `chaos.py`. -/
def N_DIM : Nat := 12

/-- A state vector: 12 doubles (`np.ndarray` of shape `(12,)`). -/
abbrev Vec (α : Type) := Fin 12 → α

variable {α : Type} [LinearOrderedField α]

/-- Constant `EPS = 1e-12` from `chaos.py`. -/
def EPS (α : Type) [LinearOrderedField α] : α := 1 / 10 ^ 12

/-- Function `Null_point() -> 0.0`. -/
def Null_point (α : Type) [LinearOrderedField α] : α := 0

/-- Function `InverseZero_operator(p)`: the Python body is
`-0.0 if p == 0.0 else -0.0` — both branches return negative zero, whose
field value is `0` (the IEEE sign of zero is tracked separately by the
`DVal` model below). -/
def InverseZero_operator (p : α) : α := if p = 0 then -0 else -0

/-- Function `H_inverse_zero_null() -> 1.0`. -/
def H_inverse_zero_null (α : Type) [LinearOrderedField α] : α := 1

/-- Transform `f_truth`: identity (`x.copy()`). -/
def f_truth (x : Vec α) : Vec α := x

/-- Transform `f_purity`: absolute values divided by their sum, all zeros if the sum
is below `EPS`. -/
def f_purity (x : Vec α) : Vec α :=
  let s : α := ∑ i, |x i|
  if s < EPS α then fun _ => Null_point α else fun i => |x i| / s

/-- Transform `f_law`: `np.clip(x, -1.0, 1.0)`. -/
def f_law (x : Vec α) : Vec α := fun i => min 1 (max (-1) (x i))

/-- Mean (`np.mean`) over the 12 entries. -/
def vmean (x : Vec α) : α := (∑ i, x i) / 12

/-- Transform `f_love`: `(x + mean) * 0.5`, entries of magnitude below `EPS`
replaced by `InverseZero_operator(0.0)` (= negative zero, field value 0). -/
def f_love (x : Vec α) : Vec α :=
  let m := vmean x
  fun i =>
    let r := (x i + m) * (1 / 2)
    if |r| < EPS α then InverseZero_operator (0 : α) else r

/-- Transform `f_wisdom`: `(x + 0.5 * (roll(x,1) + roll(x,-1))) * 0.5`;
`np.roll(x, 1)` has entry `x[i-1]` at index `i`, `np.roll(x, -1)` has
`x[i+1]`, indices wrapping mod 12 (`Fin 12` arithmetic wraps). -/
def f_wisdom (x : Vec α) : Vec α :=
  fun i => (x i + (1 / 2) * (x (i - 1) + x (i + 1))) * (1 / 2)

/-- Transform `f_life`: `tanh(x) * H_inverse_zero_null()`; `tanh` is abstract. -/
def f_life (tanh : α → α) (x : Vec α) : Vec α :=
  fun i => tanh (x i) * H_inverse_zero_null α

/-- Expression `np.where(x >= 0, x * x, -x * x)`: the elementwise signed squares of
`f_glory`. -/
def signedSquares (x : Vec α) : Vec α :=
  fun i => if 0 ≤ x i then x i * x i else -(x i * x i)

/-- Transform `f_glory`: signed squares divided by the sum of their absolute values,
all zeros if that sum is below `EPS`. -/
def f_glory (x : Vec α) : Vec α :=
  let v : Vec α := signedSquares x
  let s : α := ∑ i, |v i|
  if s < EPS α then fun _ => Null_point α else fun i => v i / s

/-- List `PRINCIPLES`: the seven transforms in the fixed source order
Truth, Purity, Law, Love, Wisdom, Life, Glory. -/
def PRINCIPLES (tanh : α → α) : List (Vec α → Vec α) :=
  [f_truth, f_purity, f_law, f_love, f_wisdom, f_life tanh, f_glory]

/-- Function `step_vector`: mask by the enable vector, then apply the seven
principles in order. -/
def step_vector (tanh : α → α) (x enabled : Vec α) : Vec α :=
  (PRINCIPLES tanh).foldl (fun v f => f v) (fun i => x i * enabled i)

/-- Serialisation `n.to_bytes(len, "big")`: big-endian byte list of fixed length.
(Python raises `OverflowError` for `n ≥ 256^len`; the counter of the generator
starts at 0 and increases by small amounts, so that branch is unreachable
in every run modelled here — the definition wraps instead of failing.) -/
def beBytes (len n : Nat) : List Nat :=
  (List.range len).map (fun k => n / 256 ^ (len - 1 - k) % 256)

/-- Deserialisation `int.from_bytes(chunk, "big")`. -/
def bytesToNatBE (l : List Nat) : Nat :=
  l.foldl (fun a b => a * 256 + b) 0

/-- The 4-byte chunk extraction shared by `__init__` and `_step`:
`chunk = digest[(i*4) % len(digest) : (i*4) % len(digest) + 4]`, extended
with a wrap-around from the start of the digest when fewer than 4 bytes
remain. -/
def chunkAt (digest : List Nat) (i : Nat) : List Nat :=
  let off := (4 * i) % digest.length
  let c := (digest.drop off).take 4
  if c.length < 4 then (c ++ digest).take 4 else c

/-- The `(v / 2^32) * 2 - 1` mapping of an unsigned 32-bit value into
`[-1, 1]`. -/
def u32ToUnit (v : Nat) : α := ((v : α) / 2 ^ 32) * 2 - 1

/-- The 12-entry noise/jitter vector derived from a digest by the 4-byte
chunk mapping (the loop bodies of `__init__` and `_step`). -/
def chunkNoise (digest : List Nat) : Vec α :=
  fun i => u32ToUnit (bytesToNatBE (chunkAt digest i.val))

/-- The abstract primitives the generator is built on: the two hash
functions, the per-element 8-byte big-endian IEEE-754 double serialiser
`struct.pack("!d", v)`, and `math.tanh` (applied elementwise by
`np.tanh`). -/
structure Prim (α : Type) where
  sha256 : List Nat → List Nat
  sha512 : List Nat → List Nat
  packDouble : α → List Nat
  tanh : α → α

/-- The mutable instance attributes of `ParacleticChaosRNG`. -/
structure RNGState (α : Type) where
  key : List Nat
  state : Vec α
  enabled : Vec α
  counter : Nat

/-- The bytes of `b"|key"`. -/
def keyTag : List Nat := [124, 107, 101, 121]

/-- The bytes of `b"|init"`. -/
def initTag : List Nat := [124, 105, 110, 105, 116]

/-- Constructor `ParacleticChaosRNG.__init__` with explicit `seed_bytes` (the
seedless branch draws OS entropy and is outside this deterministic
model): seeds shorter than 32 bytes are hashed to a 32-byte digest,
longer seeds are used verbatim; the key is `sha256(material ++ b"|key")`;
the state is the uniform `1/12` vector plus `1e-3`-scaled chunk noise
from `sha512(material ++ b"|init")`; the mask enables indices 0, 4, 7;
the counter starts at 0. -/
def initRNG (P : Prim α) (seed : List Nat) : RNGState α :=
  let seed_material := if seed.length < 32 then P.sha256 seed else seed
  { key := P.sha256 (seed_material ++ keyTag)
    state := fun i =>
      1 / 12 + chunkNoise (P.sha512 (seed_material ++ initTag)) i * (1 / 10 ^ 3)
    enabled := fun i => if i.val = 0 ∨ i.val = 4 ∨ i.val = 7 then 1 else 0
    counter := 0 }

/-- Method `_vector_to_bytes`: concatenation of the 12 per-element
`struct.pack("!d", v)` encodings, in index order. -/
def vecToBytes (P : Prim α) (x : Vec α) : List Nat :=
  (List.ofFn fun i => P.packDouble (x i)).flatten

/-- The pre-normalisation state of one `_step`: the pipeline output on the
masked state plus the `1e-9`-scaled jitter derived from
`sha512(key ++ counter.to_bytes(16, "big"))`. -/
def stepPre (P : Prim α) (g : RNGState α) : Vec α :=
  fun i =>
    step_vector P.tanh g.state g.enabled i
      + chunkNoise (P.sha512 (g.key ++ beBytes 16 g.counter)) i * (1 / 10 ^ 9)

/-- Method `ParacleticChaosRNG._step`: transform + jitter, guarded L1
renormalisation, re-key with the serialized new state and the
pre-increment counter, then increment the counter. -/
def _step (P : Prim α) (g : RNGState α) : RNGState α :=
  let s2 := stepPre P g
  let norm : α := ∑ i, |s2 i|
  let s3 := if norm > EPS α then fun i => s2 i / norm else s2
  { key := P.sha256 (g.key ++ vecToBytes P s3 ++ beBytes 16 g.counter)
    state := s3
    enabled := g.enabled
    counter := g.counter + 1 }

/-- Iterate `k` successive `_step` calls. -/
def stepN (P : Prim α) : Nat → RNGState α → RNGState α
  | 0, g => g
  | k + 1, g => stepN P k (_step P g)

/-- One iteration of the `random_bytes` loop body: 5 `_step` calls, then
the emitted 32-byte block `sha256(vector_bytes ++ key ++ counter_bytes)`
with the post-step counter, which is then incremented once more. -/
def emitBlock (P : Prim α) (g : RNGState α) : RNGState α × List Nat :=
  let g5 := stepN P 5 g
  let block := P.sha256 (vecToBytes P g5.state ++ g5.key ++ beBytes 16 g5.counter)
  ({ g5 with counter := g5.counter + 1 }, block)

/-- The `while len(out) < n` loop of `random_bytes`, with explicit fuel.
When every `sha256` digest has 32 bytes, `n.toNat` units of fuel are
provably enough, so the fuel never runs out in the runs modelled. -/
def fillLoop (P : Prim α) (n : Int) : Nat → RNGState α → List Nat → RNGState α × List Nat
  | 0, g, out => (g, out)
  | fuel + 1, g, out =>
    if (out.length : Int) < n then
      let gb := emitBlock P g
      fillLoop P n fuel gb.1 (out ++ gb.2)
    else (g, out)

/-- Method `ParacleticChaosRNG.random_bytes(n)`: run the block loop, then
truncate with `out[:n]` (which for `n ≤ 0` yields the empty string, since
the loop body never runs). Returns the final instance state together with
the output bytes. -/
def random_bytes (P : Prim α) (g : RNGState α) (n : Int) : RNGState α × List Nat :=
  let r := fillLoop P n n.toNat g []
  (r.1, r.2.take n.toNat)

/-- Run `k` loop iterations of `random_bytes`, counted by blocks: the state
after them and the concatenation of the `k` emitted blocks in order. -/
def genBlocks (P : Prim α) : Nat → RNGState α → RNGState α × List Nat
  | 0, g => (g, [])
  | k + 1, g =>
    let gb := emitBlock P g
    let rest := genBlocks P k gb.1
    (rest.1, gb.2 ++ rest.2)

/-- Ceiling `⌈n / 32⌉`, the number of 32-byte blocks a `random_bytes(n)` call
emits (0 for `n ≤ 0`). -/
def numBlocks (n : Int) : Nat := (n.toNat + 31) / 32

/-- A double together with the IEEE-754 sign of zero: `num v` is an
ordinary value (of field value `v`), `negZero` is the value `-0.0`, which
a plain field cannot distinguish from `+0.0`. -/
inductive DVal (α : Type) where
  | num (v : α) : DVal α
  | negZero : DVal α

/-- Operator `InverseZero_operator` in the sign-of-zero model: the Python body
`-0.0 if p == 0.0 else -0.0` returns negative zero in both branches. -/
def InverseZero_signed (p : α) : DVal α :=
  if p = 0 then DVal.negZero else DVal.negZero

/-- Transform `f_love` in the sign-of-zero model: entries of the intermediate
`(x + mean) * 0.5` whose magnitude is below `EPS` are overwritten with
`InverseZero_operator(0.0)` (negative zero); the rest keep their value. -/
def f_love_signed (x : Vec α) : Fin 12 → DVal α :=
  let m := vmean x
  fun i =>
    let r := (x i + m) * (1 / 2)
    if |r| < EPS α then InverseZero_signed (0 : α) else DVal.num r

/-- The step sequence exactly as the specification describes it: mask,
the seven transforms applied in the order Truth, Purity, Law, Love,
Wisdom, Life, Glory, jitter from `hash(key ‖ counter₁₆)` via the
`(v / 2^32) * 2 - 1` chunk mapping scaled by `1e-9`, guarded L1
normalisation, serialisation, re-key from
`hash(old key ‖ serialized state ‖ counter₁₆)` with the pre-increment
counter, and only then the counter increment. -/
def step_claim (P : Prim α) (g : RNGState α) : RNGState α :=
  let t := f_glory (f_life P.tanh (f_wisdom (f_love (f_law (f_purity
    (f_truth (fun i => g.state i * g.enabled i)))))))
  let ctr := beBytes 16 g.counter
  let j : Vec α := fun i =>
    (((bytesToNatBE (chunkAt (P.sha512 (g.key ++ ctr)) i.val) : α) / 2 ^ 32)
        * 2 - 1) * (1 / 10 ^ 9)
  let s2 : Vec α := fun i => t i + j i
  let norm : α := ∑ i, |s2 i|
  let s3 := if norm > EPS α then fun i => s2 i / norm else s2
  { key := P.sha256 (g.key ++ vecToBytes P s3 ++ ctr)
    state := s3
    enabled := g.enabled
    counter := g.counter + 1 }

/-- The bytes of the literal tag `"key"` exactly as the specification
states it (without the `"|"` separator byte the code actually prepends).
Modelled from the spec: formalises the claimed key-derivation tag, for
comparison with the `keyTag` of the implementation. -/
def keyTagLiteral : List Nat := [107, 101, 121]

/-- The ASCII bytes of `"paracletic_selftest_seed"`. -/
def selftestSeedBytes : List Nat :=
  [112, 97, 114, 97, 99, 108, 101, 116, 105, 99, 95, 115, 101, 108, 102,
   116, 101, 115, 116, 95, 115, 101, 101, 100]

/-- Concrete primitives over `ℚ` used to instantiate the generic theorems
on explicit inputs: constant digests of the correct lengths. -/
def toyPrim : Prim ℚ where
  sha256 := fun _ => List.replicate 32 0
  sha512 := fun _ => List.replicate 64 0
  packDouble := fun _ => List.replicate 8 0
  tanh := fun _ => 0

/-- Concrete primitives over `ℚ` whose "hashes" record the input length:
two inputs of different lengths get different digests. -/
def lenPrim : Prim ℚ where
  sha256 := fun b => [b.length]
  sha512 := fun b => [b.length]
  packDouble := fun _ => []
  tanh := fun _ => 0

/-- A concrete generator state over `ℚ` for instantiating theorems. -/
def g0 : RNGState ℚ where
  key := []
  state := fun _ => 0
  enabled := fun _ => 0
  counter := 0

lemma step_counter (P : Prim α) (g : RNGState α) :
    (_step P g).counter = g.counter + 1 := rfl

lemma stepN_counter (P : Prim α) :
    ∀ (k : Nat) (g : RNGState α), (stepN P k g).counter = g.counter + k
  | 0, g => rfl
  | k + 1, g => by
    rw [stepN, stepN_counter P k, step_counter]
    omega

lemma emitBlock_counter (P : Prim α) (g : RNGState α) :
    (emitBlock P g).1.counter = g.counter + 6 := by
  simp [emitBlock, stepN_counter]

lemma emitBlock_len (P : Prim α) (h32 : ∀ b, (P.sha256 b).length = 32)
    (g : RNGState α) : (emitBlock P g).2.length = 32 := h32 _

lemma genBlocks_counter (P : Prim α) :
    ∀ (k : Nat) (g : RNGState α),
      (genBlocks P k g).1.counter = g.counter + 6 * k
  | 0, g => rfl
  | k + 1, g => by
    rw [genBlocks]
    rw [genBlocks_counter P k, emitBlock_counter]
    ring

lemma genBlocks_len (P : Prim α) (h32 : ∀ b, (P.sha256 b).length = 32) :
    ∀ (k : Nat) (g : RNGState α), (genBlocks P k g).2.length = 32 * k
  | 0, g => rfl
  | k + 1, g => by
    rw [genBlocks]
    simp only [List.length_append, emitBlock_len P h32,
      genBlocks_len P h32 k]
    ring

lemma genBlocks_add (P : Prim α) (k1 k2 : Nat) :
    ∀ g : RNGState α,
      genBlocks P (k1 + k2) g =
        ((genBlocks P k2 (genBlocks P k1 g).1).1,
          (genBlocks P k1 g).2 ++ (genBlocks P k2 (genBlocks P k1 g).1).2) := by
  induction k1 with
  | zero => intro g; simp [genBlocks]
  | succ k ih =>
    intro g
    have hsum : k + 1 + k2 = (k + k2) + 1 := by omega
    rw [hsum]
    simp [genBlocks, ih, List.append_assoc]

/-- The fuelled `while` loop, given enough fuel, produces exactly the
blocks that `genBlocks` counts: `⌈(n - |out|)/32⌉` further iterations. -/
lemma fillLoop_eq (P : Prim α) (n : Int)
    (h32 : ∀ b, (P.sha256 b).length = 32) :
    ∀ (fuel : Nat) (g : RNGState α) (out : List Nat),
      ((n - out.length).toNat + 31) / 32 ≤ fuel →
      fillLoop P n fuel g out =
        ((genBlocks P (((n - out.length).toNat + 31) / 32) g).1,
          out ++ (genBlocks P (((n - out.length).toNat + 31) / 32) g).2) := by
  intro fuel
  induction fuel with
  | zero =>
    intro g out hk
    have h0 : ((n - out.length).toNat + 31) / 32 = 0 := by omega
    rw [h0]
    simp [fillLoop, genBlocks]
  | succ fuel ih =>
    intro g out hk
    rw [fillLoop]
    by_cases hlt : (out.length : Int) < n
    · rw [if_pos hlt]
      obtain ⟨k, hkeq⟩ : ∃ k, ((n - out.length).toNat + 31) / 32 = k + 1 := by
        refine ⟨((n - out.length).toNat + 31) / 32 - 1, ?_⟩
        omega
      rw [hkeq]
      have hlen : ((out ++ (emitBlock P g).2).length : Int) = out.length + 32 := by
        simp [emitBlock_len P h32]
      have hneed : ((n - (out ++ (emitBlock P g).2).length).toNat + 31) / 32 = k := by
        rw [hlen] at *
        omega
      rw [ih (emitBlock P g).1 (out ++ (emitBlock P g).2) (by omega)]
      rw [hneed]
      simp [genBlocks, List.append_assoc]
    · rw [if_neg hlt]
      have h0 : ((n - out.length).toNat + 31) / 32 = 0 := by omega
      rw [h0]
      simp [genBlocks]

/-- Method `random_bytes(n)` is the truncation to `n` bytes of the `⌈n/32⌉`
emitted blocks, starting from the given instance state. -/
lemma random_bytes_eq (P : Prim α) (h32 : ∀ b, (P.sha256 b).length = 32)
    (g : RNGState α) (n : Int) :
    random_bytes P g n =
      ((genBlocks P (numBlocks n) g).1,
        (genBlocks P (numBlocks n) g).2.take n.toNat) := by
  unfold random_bytes
  have hfuel : ((n - (([] : List Nat).length : Int)).toNat + 31) / 32 ≤ n.toNat := by
    simp only [List.length_nil, Int.ofNat_zero, sub_zero]
    omega
  rw [fillLoop_eq P n h32 n.toNat g [] hfuel]
  simp [numBlocks]

/-- C1: two generators independently constructed from the same seed bytes
produce, for any requested length `n`, bit-for-bit identical output; in
particular for `n = 64` and the seed `sha256("paracletic_selftest_seed")`.
(The construction and the byte extraction are pure functions of the seed,
so any two instances satisfying the constructor postcondition agree.) -/
theorem random_bytes_deterministic (P : Prim α) (S : List Nat) (n : Int)
    (g1 g2 : RNGState α) (h1 : g1 = initRNG P S) (h2 : g2 = initRNG P S) :
    (random_bytes P g1 n).2 = (random_bytes P g2 n).2 := by
  rw [h1, h2]

/-- Witness for C1, at the self-test scenario: the fixed seed
`sha256("paracletic_selftest_seed")` and `n = 64`. -/
theorem random_bytes_deterministic_witness :
    (initRNG toyPrim (toyPrim.sha256 selftestSeedBytes)
        = initRNG toyPrim (toyPrim.sha256 selftestSeedBytes)) ∧
    (random_bytes toyPrim (initRNG toyPrim (toyPrim.sha256 selftestSeedBytes)) 64).2
      = (random_bytes toyPrim (initRNG toyPrim (toyPrim.sha256 selftestSeedBytes)) 64).2 :=
  ⟨rfl, random_bytes_deterministic toyPrim (toyPrim.sha256 selftestSeedBytes) 64 _ _ rfl rfl⟩

/-- C2: for every `n ≥ 0`, `random_bytes(n)` returns exactly `n` bytes
(`n.toNat` here), including `n = 0` and `n` not a multiple of the 32-byte
block size, provided the hash digests have their real 32-byte length. -/
theorem random_bytes_length (P : Prim α)
    (h32 : ∀ b, (P.sha256 b).length = 32)
    (g : RNGState α) (n : Int) (hn : 0 ≤ n) :
    ((random_bytes P g n).2).length = n.toNat := by
  rw [random_bytes_eq P h32]
  simp only [List.length_take, genBlocks_len P h32, numBlocks]
  omega

/-- Witness for C2 at `n = 5`, not a multiple of 32. -/
theorem random_bytes_length_witness :
    (∀ b, (toyPrim.sha256 b).length = 32) ∧ ((0 : Int) ≤ 5) ∧
    ((random_bytes toyPrim g0 5).2).length = (5 : Int).toNat :=
  ⟨fun _ => rfl, by decide,
    random_bytes_length toyPrim (fun _ => rfl) g0 5 (by decide)⟩

/-- C9: for every `n ≤ 0`, `random_bytes(n)` returns the empty byte
string and leaves the whole instance — state vector, key, counter and
enable mask — unchanged: the loop body never runs. -/
theorem random_bytes_nonpos (P : Prim α) (g : RNGState α) (n : Int)
    (hn : n ≤ 0) : random_bytes P g n = (g, []) := by
  have h0 : n.toNat = 0 := by omega
  simp [random_bytes, h0, fillLoop]

/-- Witness for C9 at `n = -1`. -/
theorem random_bytes_nonpos_witness :
    ((-1 : Int) ≤ 0) ∧ random_bytes toyPrim g0 (-1) = (g0, []) :=
  ⟨by decide, random_bytes_nonpos toyPrim g0 (-1) (by decide)⟩

/-- C4: one `_step` performs exactly the claimed sequence — mask, the
seven transforms in the order Truth, Purity, Law, Love, Wisdom, Life,
Glory, addition of the `1e-9`-scaled jitter derived from
`hash(key ‖ counter₁₆)` by the `(v / 2^32) * 2 - 1` 4-byte-chunk mapping,
guarded L1 normalisation, serialisation, re-key from
`hash(old key ‖ serialized state ‖ counter₁₆)` with the pre-increment
counter, and the counter increment last. -/
theorem step_matches_claimed_sequence (P : Prim α) (g : RNGState α) :
    _step P g = step_claim P g := rfl

/-- C3: for `n > 0`, the output of `random_bytes(n)` is the truncation to
`n` bytes of `⌈n/32⌉` concatenated 32-byte blocks; each block is emitted
after exactly 5 `_step` calls and equals
`sha256(serialized state ‖ key ‖ counter₁₆)`, after which the counter is
incremented once more; hence the call advances the counter by exactly
`6 * ⌈n/32⌉`. -/
theorem random_bytes_block_structure (P : Prim α)
    (h32 : ∀ b, (P.sha256 b).length = 32)
    (g : RNGState α) (n : Int) (hn : 0 < n) :
    (random_bytes P g n).2
        = ((genBlocks P ((n.toNat + 31) / 32) g).2).take n.toNat ∧
    (∀ h : RNGState α,
        (emitBlock P h).2
            = P.sha256 (vecToBytes P (stepN P 5 h).state ++ (stepN P 5 h).key
                ++ beBytes 16 (stepN P 5 h).counter) ∧
        (emitBlock P h).1
            = { stepN P 5 h with counter := (stepN P 5 h).counter + 1 }) ∧
    (random_bytes P g n).1.counter = g.counter + 6 * ((n.toNat + 31) / 32) := by
  rw [random_bytes_eq P h32]
  exact ⟨rfl, fun h => ⟨rfl, rfl⟩, genBlocks_counter P (numBlocks n) g⟩

/-- Witness for C3 at `n = 33` (two blocks, counter advanced by 12). -/
theorem random_bytes_block_structure_witness :
    (∀ b, (toyPrim.sha256 b).length = 32) ∧ ((0 : Int) < 33) ∧
    ((random_bytes toyPrim g0 33).2
        = ((genBlocks toyPrim (((33 : Int).toNat + 31) / 32) g0).2).take (33 : Int).toNat ∧
      (∀ h : RNGState ℚ,
        (emitBlock toyPrim h).2
            = toyPrim.sha256 (vecToBytes toyPrim (stepN toyPrim 5 h).state
                ++ (stepN toyPrim 5 h).key ++ beBytes 16 (stepN toyPrim 5 h).counter) ∧
        (emitBlock toyPrim h).1
            = { stepN toyPrim 5 h with counter := (stepN toyPrim 5 h).counter + 1 }) ∧
      (random_bytes toyPrim g0 33).1.counter
        = g0.counter + 6 * (((33 : Int).toNat + 31) / 32)) :=
  ⟨fun _ => rfl, by decide,
    random_bytes_block_structure toyPrim (fun _ => rfl) g0 33 (by decide)⟩

/-- C10: for `a = 32 * k` and `b ≥ 0`, `random_bytes(a)` followed by
`random_bytes(b)` on one instance produces, concatenated, the same bytes
as a single `random_bytes(a + b)` call started from the identical state,
and both runs end in the same state: block-aligned requests discard no
generated bytes. -/
theorem random_bytes_split (P : Prim α)
    (h32 : ∀ b, (P.sha256 b).length = 32)
    (g : RNGState α) (k : Nat) (b : Int) (hb : 0 ≤ b) :
    (random_bytes P g (32 * k + b)).2
        = (random_bytes P g (32 * k)).2
            ++ (random_bytes P (random_bytes P g (32 * k)).1 b).2 ∧
    (random_bytes P g (32 * k + b)).1
        = (random_bytes P (random_bytes P g (32 * k)).1 b).1 := by
  rw [random_bytes_eq P h32 g (32 * k + b), random_bytes_eq P h32 g (32 * k),
    random_bytes_eq P h32 _ b]
  have hk1 : numBlocks (32 * (k : Int)) = k := by
    simp only [numBlocks]
    omega
  have hk2 : numBlocks (32 * (k : Int) + b) = k + numBlocks b := by
    simp only [numBlocks]
    omega
  have htn1 : (32 * (k : Int)).toNat = 32 * k := by omega
  have htn2 : (32 * (k : Int) + b).toNat = 32 * k + b.toNat := by omega
  rw [hk1, hk2, htn1, htn2, genBlocks_add P k (numBlocks b) g]
  have hlen : (genBlocks P k g).2.length = 32 * k := genBlocks_len P h32 k g
  constructor
  · dsimp only
    rw [List.take_append_eq_append_take, hlen]
    rw [List.take_of_length_le (le_of_eq hlen)]
    rw [List.take_of_length_le (by rw [hlen]; omega)]
    have hsub : 32 * k + b.toNat - 32 * k = b.toNat := by omega
    rw [hsub]
  · rfl

/-- Witness for C10 at `k = 1`, `b = 5`. -/
theorem random_bytes_split_witness :
    (∀ b, (toyPrim.sha256 b).length = 32) ∧ ((0 : Int) ≤ 5) ∧
    ((random_bytes toyPrim g0 (32 * 1 + 5)).2
        = (random_bytes toyPrim g0 (32 * 1)).2
            ++ (random_bytes toyPrim (random_bytes toyPrim g0 (32 * 1)).1 5).2 ∧
      (random_bytes toyPrim g0 (32 * 1 + 5)).1
        = (random_bytes toyPrim (random_bytes toyPrim g0 (32 * 1)).1 5).1) :=
  ⟨fun _ => rfl, by decide,
    random_bytes_split toyPrim (fun _ => rfl) g0 1 5 (by decide)⟩

/-- C5 counterexample: the claim as stated derives the initial key as
`hash(seed material ‖ literal tag "key")`, but the code hashes
`seed material ‖ "|key"` — the appended bytes carry a leading `"|"`
separator. At a concrete 32-byte seed with hash primitives that record
input length, the two derivations disagree. -/
theorem init_key_tag_counterexample :
    ¬ ((initRNG lenPrim (List.replicate 32 0)).key
        = lenPrim.sha256 (List.replicate 32 0 ++ keyTagLiteral)) := by
  decide

/-- C5 (amended): construction from explicit seed bytes uses
`sha256(seed)` as seed material when the seed is shorter than 32 bytes
and the seed verbatim otherwise; the initial key is
`sha256(material ++ "|key")` and the initial state is the uniform `1/12`
vector plus `1e-3`-scaled noise from `sha512(material ++ "|init")` via
the `(v / 2^32) * 2 - 1` chunk mapping — the tags carry the leading `"|"`
byte, unlike the bare claimed tags `"key"` / `"init"`. -/
theorem init_characterisation (P : Prim α) (seed : List Nat) :
    (seed.length < 32 →
        (initRNG P seed).key = P.sha256 (P.sha256 seed ++ keyTag) ∧
        (initRNG P seed).state
          = fun i => 1 / 12
              + chunkNoise (P.sha512 (P.sha256 seed ++ initTag)) i * (1 / 10 ^ 3)) ∧
    (32 ≤ seed.length →
        (initRNG P seed).key = P.sha256 (seed ++ keyTag) ∧
        (initRNG P seed).state
          = fun i => 1 / 12
              + chunkNoise (P.sha512 (seed ++ initTag)) i * (1 / 10 ^ 3)) := by
  constructor
  · intro h
    simp [initRNG, h]
  · intro h
    have hne : ¬ seed.length < 32 := by omega
    simp [initRNG, hne]

/-- Witness for the amended C5, at a 32-byte all-zero seed (used
verbatim). -/
theorem init_characterisation_witness :
    (32 ≤ (List.replicate 32 (0 : Nat)).length) ∧
    ((initRNG lenPrim (List.replicate 32 0)).key
        = lenPrim.sha256 (List.replicate 32 0 ++ keyTag)) :=
  ⟨by decide,
    ((init_characterisation lenPrim (List.replicate 32 0)).2 (by decide)).1⟩

/-- C6: after every `_step`, either the state vector was divided by its
pre-normalisation L1 norm and now has L1 norm exactly 1, or that norm was
at or below `EPS = 1e-12` and the division was skipped, leaving the
pre-normalisation vector. Holding for every state `g`, this is an
invariant of all reachable states after at least one step. -/
theorem step_normalisation_invariant (P : Prim α) (g : RNGState α) :
    ((∑ i, |stepPre P g i|) > EPS α ∧
      (∑ i, |(_step P g).state i|) = 1 ∧
      (_step P g).state = fun i => stepPre P g i / ∑ j, |stepPre P g j|)
    ∨ ((∑ i, |stepPre P g i|) ≤ EPS α ∧ (_step P g).state = stepPre P g) := by
  have heps : (0 : α) < EPS α := by unfold EPS; positivity
  have hstate : (_step P g).state
      = if (∑ i, |stepPre P g i|) > EPS α
          then fun i => stepPre P g i / ∑ j, |stepPre P g j|
          else stepPre P g := rfl
  by_cases h : (∑ i, |stepPre P g i|) > EPS α
  · left
    have hpos : (0 : α) < ∑ i, |stepPre P g i| := lt_trans heps h
    refine ⟨h, ?_, by rw [hstate, if_pos h]⟩
    rw [hstate, if_pos h]
    have habs : ∀ i : Fin 12,
        abs (stepPre P g i / ∑ j, |stepPre P g j|)
          = |stepPre P g i| / ∑ j, |stepPre P g j| := fun i => by
      rw [abs_div, abs_of_pos hpos]
    simp only [habs]
    rw [← Finset.sum_div, div_self (ne_of_gt hpos)]
  · right
    exact ⟨le_of_not_lt h, by rw [hstate, if_neg h]⟩

/-- C7: neither `f_purity` nor `f_glory` divides by a near-zero
denominator: when the relevant sum of absolute values is below `EPS` they
return the all-zero vector, and otherwise they divide by a sum that is at
least `EPS` and in particular nonzero — so in exact arithmetic no
non-finite value can arise. -/
theorem purity_glory_guard (x : Vec α) :
    (((∑ i, |x i|) < EPS α ∧ f_purity x = fun _ => (0 : α)) ∨
      (EPS α ≤ (∑ i, |x i|) ∧ (∑ i, |x i|) ≠ 0 ∧
        f_purity x = fun i => |x i| / ∑ j, |x j|)) ∧
    (((∑ i, |signedSquares x i|) < EPS α ∧ f_glory x = fun _ => (0 : α)) ∨
      (EPS α ≤ (∑ i, |signedSquares x i|) ∧ (∑ i, |signedSquares x i|) ≠ 0 ∧
        f_glory x = fun i => signedSquares x i / ∑ j, |signedSquares x j|)) := by
  have heps : (0 : α) < EPS α := by unfold EPS; positivity
  constructor
  · by_cases h : (∑ i, |x i|) < EPS α
    · exact Or.inl ⟨h, by simp [f_purity, Null_point, h]⟩
    · refine Or.inr ⟨le_of_not_lt h,
        ne_of_gt (lt_of_lt_of_le heps (le_of_not_lt h)), ?_⟩
      simp [f_purity, h]
  · by_cases h : (∑ i, |signedSquares x i|) < EPS α
    · exact Or.inl ⟨h, by simp [f_glory, Null_point, h]⟩
    · refine Or.inr ⟨le_of_not_lt h,
        ne_of_gt (lt_of_lt_of_le heps (le_of_not_lt h)), ?_⟩
      simp [f_glory, h]

lemma InverseZero_signed_eq (p : α) : InverseZero_signed p = DVal.negZero := by
  unfold InverseZero_signed
  split <;> rfl

lemma f_love_signed_eq (x : Vec α) (i : Fin 12) :
    f_love_signed x i
      = if |(x i + vmean x) * (1 / 2)| < EPS α then DVal.negZero
        else DVal.num ((x i + vmean x) * (1 / 2)) := by
  simp only [f_love_signed, InverseZero_signed_eq]

/-- C8: in `f_love`, every entry of the intermediate `(x + mean) * 0.5`
whose magnitude is below `EPS = 1e-12` is replaced by IEEE-754 negative
zero — the value `InverseZero_operator(0.0)` substitutes, whatever the
sign of the original entry — while entries of magnitude at least `EPS` keep
the value `(x + mean) * 0.5`. -/
theorem love_negzero_substitution (x : Vec α) (i : Fin 12) :
    (|(x i + vmean x) * (1 / 2)| < EPS α →
        f_love_signed x i = DVal.negZero) ∧
    (EPS α ≤ |(x i + vmean x) * (1 / 2)| →
        f_love_signed x i = DVal.num ((x i + vmean x) * (1 / 2))) := by
  constructor
  · intro h
    rw [f_love_signed_eq, if_pos h]
  · intro h
    rw [f_love_signed_eq, if_neg (not_lt.mpr h)]

/-- Witness for C8: a strictly positive entry (`1e-13`, below threshold
after averaging) is nonetheless replaced by negative zero. -/
theorem love_negzero_substitution_witness :
    (|((1 / 10 ^ 13 : ℚ) + vmean (fun _ : Fin 12 => (1 / 10 ^ 13 : ℚ)))
        * (1 / 2)| < EPS ℚ) ∧
    f_love_signed (fun _ : Fin 12 => (1 / 10 ^ 13 : ℚ)) 0 = DVal.negZero := by
  have hm : vmean (fun _ : Fin 12 => (1 / 10 ^ 13 : ℚ)) = 1 / 10 ^ 13 := by
    unfold vmean
    rw [Finset.sum_const, Finset.card_univ]
    norm_num
  have h : |((1 / 10 ^ 13 : ℚ) + vmean (fun _ : Fin 12 => (1 / 10 ^ 13 : ℚ)))
      * (1 / 2)| < EPS ℚ := by
    rw [hm]
    unfold EPS
    rw [abs_of_pos (by norm_num)]
    norm_num
  exact ⟨h, (love_negzero_substitution (fun _ => 1 / 10 ^ 13) 0).1 h⟩

end Paracletic
